import Mathlib

/-!
Shallow embedding of `tpdp` (`src/tpdp/pipeline.py`): a sequential pipeline
engine threading a mutable `State` through an ordered list of `Step`s, with an
abort hook, two failure policies (`ignore_exception = True/False`), and
structured `StepResult` / `PipelineResult` records.

Modelling conventions:
* Python's `State` base class is an empty pydantic model that concrete
  pipelines subclass; we abstract it as a type parameter `σ`.
* A step failure ("raise") is abstracted as a value of an error type `ε`;
  `Except ε σ` models "returned a state normally / raised".
* Wall-clock timing (`start_at`, `finish_at`, `duration` fields, filled from
  `time.time()` / `datetime.now()`) is abstracted away: no claim concerns it.
* The side effect of a step calling the `pipeline_abort` hook is recorded in
  the Boolean `abortCalled` of the step's effect; the engine ors it into the
  pipeline's `_pipeline_abort` flag, exactly as the hook mutation does.
* Logging calls are modelled as a list of emitted `LogEvent`s (with their
  levels); the sink/formatting is external.
-/

set_option autoImplicit false

namespace Tpdp

/-! ### Dynamic type guards (`is_state` / `assert_state` / `is_step` / `assert_step`)

`pipeline.py` lines 80-87 and 123-130.  Python is dynamically typed, so the
guards inspect arbitrary runtime values; we model the universe of values a
caller might offer with `Dyn`.  The source defines a single exception class
`TpdpException` (line 21); a raised Python exception is modelled as a
`PyError` carrying the exception class name and message. -/

/-- A raised Python exception: its class name and its message string. -/
structure PyError where
  cls : String
  msg : String
  deriving DecidableEq, Repr

/-- A runtime value offered to a type guard: an instance of (a subclass of)
`State`, an instance of (a subclass of) `Step`, or any other value, carried
with its string form (what `f"{type_}"` would interpolate). -/
inductive Dyn where
  | stateVal
  | stepVal
  | otherVal (s : String)
  deriving DecidableEq, Repr

/-- String form of a value, used in the guard error messages. -/
def Dyn.str : Dyn → String
  | .stateVal => "State()"
  | .stepVal => "Step()"
  | .otherVal s => s

/-- `is_state` (line 80): `isinstance(type_, State)`. -/
def is_state : Dyn → Bool
  | .stateVal => true
  | _ => false

/-- `is_step` (line 123): `isinstance(type_, Step)`. -/
def is_step : Dyn → Bool
  | .stepVal => true
  | _ => false

/-- `assert_state` (lines 84-87): returns the value unchanged if it is a
`State`, else raises `TpdpException(f"Expected {type_} to be a State type.")`. -/
def assert_state (v : Dyn) : Except PyError Dyn :=
  if is_state v then .ok v
  else .error ⟨"TpdpException", "Expected " ++ v.str ++ " to be a State type."⟩

/-- `assert_step` (lines 127-130): returns the value unchanged if it is a
`Step`, else raises `TpdpException(f"Expected {type_} to be a Step type.")`. -/
def assert_step (v : Dyn) : Except PyError Dyn :=
  if is_step v then .ok v
  else .error ⟨"TpdpException", "Expected " ++ v.str ++ " to be a Step type."⟩

/-- The exception class of a guard outcome, `none` if no exception was raised. -/
def errClass {α : Type} : Except PyError α → Option String
  | .error e => some e.cls
  | .ok _ => none

/-! ### The typed engine

Inside the engine the values are well-typed by construction (the `assert_state`
call at `run` entry and the `assert_step` call in `registry_step` always
succeed on them), so the orchestrator is embedded over a state type `σ` and an
error type `ε`. -/

/-- The effect of one invocation of `Step.run` (line 112): either a returned
replacement state or a raised error, together with whether the step invoked
the `pipeline_abort` hook during the call. -/
structure StepEffect (σ ε : Type) where
  result : Except ε σ
  abortCalled : Bool

/-- A `Step` (lines 102-120): a `step_name` and the user-supplied `run`
behaviour, a function of the input state. -/
structure Step (σ ε : Type) where
  step_name : String
  run : σ → StepEffect σ ε

/-- Levels of the logging calls made by the engine. -/
inductive LogLevel where
  | info
  | warning
  deriving DecidableEq, Repr

/-- The log records emitted by `Pipeline` methods, with their payloads
(timestamps and durations abstracted away). -/
inductive LogEvent where
  | pipelineStart
  | pipelineFinish
  | stepRegistered (name : String)
  | stepStart (name : String)
  | stepFinish (name : String)
  | emptyStepsWarning
  | abortedByStep (name : String)
  deriving DecidableEq, Repr

/-- The level each event is emitted at: `logger.warning` for the empty-steps
message (line 287), `logger.info` for everything else. -/
def LogEvent.level : LogEvent → LogLevel
  | .emptyStepsWarning => .warning
  | _ => .info

/-- `StepResult` (lines 93-99).  The pydantic field `correct_finish` is
`Optional[bool]`, but every `StepResult` the engine emits has it resolved to a
Boolean (`_run_step` lines 227-249), so it is embedded as `Bool`.  Timing
fields are abstracted away. -/
structure StepResult where
  name : String
  correct_finish : Bool
  deriving DecidableEq, Repr

/-- `PipelineResult` (lines 136-143), same conventions as `StepResult`. -/
structure PipelineResult where
  pipeline_name : String
  steps_result : List StepResult
  correct_finish : Bool
  deriving DecidableEq, Repr

/-- The mutable fields of a `Pipeline` instance (lines 146-181).  `_state` and
`_correct_finish` are unassigned until the first `run`, hence `Option`. -/
structure Pipeline (σ ε : Type) where
  pipeline_name : String
  pipeline_abort_flag : Bool
  ignore_exception : Bool
  correct_finish : Option Bool
  state : Option σ
  steps : List (Step σ ε)
  steps_result : List StepResult

/-- `Pipeline.__init__` (lines 167-181): abort flag `False`, empty step list,
empty result list; `ignore_exception` defaults to `True` in the source. -/
def Pipeline.init {σ ε : Type} (name : String) (ignore_exception : Bool := true) :
    Pipeline σ ε :=
  { pipeline_name := name
    pipeline_abort_flag := false
    ignore_exception := ignore_exception
    correct_finish := none
    state := none
    steps := []
    steps_result := [] }

/-- `Pipeline.pipeline_abort` (lines 261-263): sets the abort flag. -/
def Pipeline.pipeline_abort {σ ε : Type} (p : Pipeline σ ε) : Pipeline σ ε :=
  { p with pipeline_abort_flag := true }

/-- `Pipeline.registry_step` (lines 265-271): `assert_step` (which always
succeeds on a well-typed `Step`), append, log `Step registered`. -/
def Pipeline.registry_step {σ ε : Type} (p : Pipeline σ ε) (step : Step σ ε) :
    Pipeline σ ε :=
  { p with steps := p.steps ++ [step] }

/-- `Pipeline.get_state` (lines 273-274). -/
def Pipeline.get_state {σ ε : Type} (p : Pipeline σ ε) : Option σ :=
  p.state

/-- `Pipeline._get_pipeline_result` (lines 211-219), built from the instance
fields.  It is only called after `run` has assigned `_correct_finish`
(line 284), so the `getD` default is never reached on the engine's paths. -/
def Pipeline._get_pipeline_result {σ ε : Type} (p : Pipeline σ ε) : PipelineResult :=
  { pipeline_name := p.pipeline_name
    steps_result := p.steps_result
    correct_finish := p.correct_finish.getD true }

/-- What the `for step in self._steps:` loop of `run` (lines 292-302) computes,
together with the `_run_step` body it calls (lines 221-259): the live state,
the abort flag, the `StepResult`s appended during the loop, the
`_correct_finish` flag after the loop, the raised error when the policy is
propagate (line 238) and a step raised, and the emitted logs.

Per iteration: run the step (the hook mutation is ored into the flag); if it
raised and `ignore_exception` is true, append a failed `StepResult`, set
`correct_finish := false` and stop (lines 296-298, the failure check); if it
raised under propagate, re-raise (no `StepResult`, no `Step finish` log); if
it returned, adopt the returned state, append a successful `StepResult`, then
check the abort flag (lines 300-302, the abort check, after the failure
check) and stop if set. -/
structure LoopOut (σ ε : Type) where
  state : σ
  pipeline_abort_flag : Bool
  steps_result : List StepResult
  correct_finish : Bool
  raised : Option ε
  logs : List LogEvent
  deriving Repr

def runLoop {σ ε : Type} (ignore_exception : Bool) :
    List (Step σ ε) → σ → Bool → LoopOut σ ε
  | [], s, ab => ⟨s, ab, [], true, none, []⟩
  | step :: rest, s, ab =>
    let eff := step.run s
    let ab' := ab || eff.abortCalled
    match eff.result with
    | .error e =>
      if ignore_exception then
        ⟨s, ab', [⟨step.step_name, false⟩], false, none,
          [.stepStart step.step_name, .stepFinish step.step_name]⟩
      else
        ⟨s, ab', [], true, some e, [.stepStart step.step_name]⟩
    | .ok s' =>
      if ab' then
        ⟨s', ab', [⟨step.step_name, true⟩], true, none,
          [.stepStart step.step_name, .stepFinish step.step_name,
            .abortedByStep step.step_name]⟩
      else
        let out := runLoop ignore_exception rest s' ab'
        ⟨out.state, out.pipeline_abort_flag,
          ⟨step.step_name, true⟩ :: out.steps_result,
          out.correct_finish, out.raised,
          .stepStart step.step_name :: .stepFinish step.step_name :: out.logs⟩

/-- What one call of `Pipeline.run` leaves behind: the instance's fields after
the call returns or raises, the returned `PipelineResult` or the raised error,
and the logs emitted during the call. -/
structure RunOutcome (σ ε : Type) where
  pipeline : Pipeline σ ε
  result : Except ε PipelineResult
  logs : List LogEvent

/-- `Pipeline.run` (lines 276-305).  `self._state = init_state` and
`assert_state(self._state)` (which always succeeds on a well-typed state),
`self._correct_finish = True`; if the step list is empty, warn and return at
once; otherwise run the loop, then build the result from the updated fields.
When a step raises under the propagate policy the error escapes `run`: no
result is built, `_correct_finish` keeps the `True` assigned at entry, and
the results appended before the failure stay in `_steps_result`. -/
def Pipeline.run {σ ε : Type} (p : Pipeline σ ε) (init_state : σ) : RunOutcome σ ε :=
  let p0 : Pipeline σ ε := { p with state := some init_state, correct_finish := some true }
  if p0.steps.isEmpty then
    { pipeline := p0
      result := .ok p0._get_pipeline_result
      logs := [.pipelineStart, .emptyStepsWarning, .pipelineFinish] }
  else
    let out := runLoop p0.ignore_exception p0.steps init_state p0.pipeline_abort_flag
    match out.raised with
    | some e =>
      { pipeline := { p0 with
          state := some out.state
          pipeline_abort_flag := out.pipeline_abort_flag
          steps_result := p0.steps_result ++ out.steps_result }
        result := .error e
        logs := .pipelineStart :: out.logs }
    | none =>
      let p1 : Pipeline σ ε := { p0 with
        state := some out.state
        pipeline_abort_flag := out.pipeline_abort_flag
        correct_finish := some out.correct_finish
        steps_result := p0.steps_result ++ out.steps_result }
      { pipeline := p1
        result := .ok p1._get_pipeline_result
        logs := .pipelineStart :: (out.logs ++ [.pipelineFinish]) }

/-- A freshly constructed pipeline with the given steps registered in order
(`Pipeline(name, ignore_exception)` followed by one `registry_step` per
step). -/
def freshPipeline {σ ε : Type} (name : String) (ignore_exception : Bool)
    (steps : List (Step σ ε)) : Pipeline σ ε :=
  steps.foldl Pipeline.registry_step (Pipeline.init name ignore_exception)

/-- Threads a state through a list of steps provided every step returns
normally without invoking the abort hook; `none` as soon as one raises or
aborts.  This captures "execution reaches the end of the list cleanly". -/
def cleanThread {σ ε : Type} : List (Step σ ε) → σ → Option σ
  | [], s => some s
  | st :: rest, s =>
    match st.run s with
    | ⟨.ok s', false⟩ => cleanThread rest s'
    | _ => none

/-! ### Shared lemmas about the engine -/

theorem foldl_registry_step {σ ε : Type} (l : List (Step σ ε)) (p : Pipeline σ ε) :
    l.foldl Pipeline.registry_step p = { p with steps := p.steps ++ l } := by
  induction l generalizing p with
  | nil => simp
  | cons st rest ih => simp [Pipeline.registry_step, ih]

theorem freshPipeline_eq {σ ε : Type} (name : String) (ig : Bool)
    (steps : List (Step σ ε)) :
    freshPipeline name ig steps = ⟨name, false, ig, none, none, steps, []⟩ := by
  simp [freshPipeline, foldl_registry_step, Pipeline.init]

theorem isEmpty_append_cons {α : Type} (pre : List α) (st : α) (post : List α) :
    (pre ++ st :: post).isEmpty = false := by
  cases pre <;> rfl

/-- Decomposing the loop at a clean position: if every step of `pre` returns
normally without invoking the abort hook, running the loop over `pre ++ rest`
behaves as running it over `rest` from the threaded state, with one successful
`StepResult` per step of `pre` in front. -/
theorem runLoop_append_clean {σ ε : Type} (ign : Bool) (pre rest : List (Step σ ε))
    (s0 s1 : σ) (h : cleanThread pre s0 = some s1) :
    runLoop ign (pre ++ rest) s0 false =
      ⟨(runLoop ign rest s1 false).state,
        (runLoop ign rest s1 false).pipeline_abort_flag,
        (pre.map fun st => ⟨st.step_name, true⟩)
          ++ (runLoop ign rest s1 false).steps_result,
        (runLoop ign rest s1 false).correct_finish,
        (runLoop ign rest s1 false).raised,
        (pre.flatMap fun st => [.stepStart st.step_name, .stepFinish st.step_name])
          ++ (runLoop ign rest s1 false).logs⟩ := by
  induction pre generalizing s0 with
  | nil =>
    simp only [cleanThread, Option.some.injEq] at h
    subst h
    simp
  | cons st pre ih =>
    rw [cleanThread] at h
    rcases hrun : st.run s0 with ⟨res, abc⟩
    rw [hrun] at h
    match res, abc with
    | .error e, _ => simp at h
    | .ok s', true => simp at h
    | .ok s', false =>
      simp only at h
      have ih' := ih s' h
      simp only [List.cons_append, runLoop, hrun, Bool.false_or, List.append_eq]
      simp only [ih']
      simp

/-- After the loop, `_correct_finish` is exactly "every appended `StepResult`
finished correctly". -/
theorem runLoop_correct_finish_eq_all {σ ε : Type} (ign : Bool)
    (steps : List (Step σ ε)) (s : σ) (ab : Bool) :
    (runLoop ign steps s ab).correct_finish
      = (runLoop ign steps s ab).steps_result.all fun r => r.correct_finish := by
  induction steps generalizing s ab with
  | nil => simp [runLoop]
  | cons st rest ih =>
    simp only [runLoop]
    rcases hrun : st.run s with ⟨res, abc⟩
    rcases res with e | s'
    · simp only [hrun]
      split <;> simp
    · simp only [hrun]
      split
      · simp
      · simp [ih]

/-- The loop never clears the abort flag. -/
theorem runLoop_abort_flag_true {σ ε : Type} (ign : Bool) (steps : List (Step σ ε))
    (s : σ) :
    (runLoop ign steps s true).pipeline_abort_flag = true := by
  cases steps with
  | nil => rfl
  | cons st rest =>
    simp only [runLoop, Bool.true_or]
    rcases hrun : st.run s with ⟨res, abc⟩
    rcases res with e | s'
    · simp only [hrun]
      split <;> simp
    · simp [hrun]

/-- With the abort flag already set, the loop runs only the first step: its
outcome does not depend on the remaining steps. -/
theorem runLoop_cons_true {σ ε : Type} (ign : Bool) (st : Step σ ε)
    (rest : List (Step σ ε)) (s : σ) :
    runLoop ign (st :: rest) s true = runLoop ign [st] s true := by
  simp only [runLoop, Bool.true_or]
  rcases hrun : st.run s with ⟨res, abc⟩
  rcases res with e | s' <;> simp [hrun]

/-- Unfolding `run` on an empty step list (lines 286-290). -/
theorem run_eq_empty {σ ε : Type} (p : Pipeline σ ε) (s : σ) (h : p.steps = []) :
    p.run s =
      ⟨{ p with state := some s, correct_finish := some true },
        .ok ⟨p.pipeline_name, p.steps_result, true⟩,
        [.pipelineStart, .emptyStepsWarning, .pipelineFinish]⟩ := by
  simp [Pipeline.run, Pipeline._get_pipeline_result, h]

/-- Unfolding `run` when the loop re-raises a step error (propagate policy). -/
theorem run_eq_raised {σ ε : Type} (p : Pipeline σ ε) (s : σ) (out : LoopOut σ ε)
    (e : ε) (hne : p.steps.isEmpty = false)
    (hout : runLoop p.ignore_exception p.steps s p.pipeline_abort_flag = out)
    (hraised : out.raised = some e) :
    p.run s =
      ⟨{ p with
          state := some out.state
          correct_finish := some true
          pipeline_abort_flag := out.pipeline_abort_flag
          steps_result := p.steps_result ++ out.steps_result },
        .error e, .pipelineStart :: out.logs⟩ := by
  subst hout
  simp [Pipeline.run, hne, hraised]

/-- Unfolding `run` when the loop finishes without re-raising. -/
theorem run_eq_ok {σ ε : Type} (p : Pipeline σ ε) (s : σ) (out : LoopOut σ ε)
    (hne : p.steps.isEmpty = false)
    (hout : runLoop p.ignore_exception p.steps s p.pipeline_abort_flag = out)
    (hraised : out.raised = none) :
    p.run s =
      ⟨{ p with
          state := some out.state
          correct_finish := some out.correct_finish
          pipeline_abort_flag := out.pipeline_abort_flag
          steps_result := p.steps_result ++ out.steps_result },
        .ok ⟨p.pipeline_name, p.steps_result ++ out.steps_result, out.correct_finish⟩,
        .pipelineStart :: (out.logs ++ [.pipelineFinish])⟩ := by
  subst hout
  simp [Pipeline.run, Pipeline._get_pipeline_result, hne, hraised]

/-- The `steps_result` field of the instance only ever grows across `run`. -/
theorem run_steps_result_grows {σ ε : Type} (p : Pipeline σ ε) (s : σ) :
    ∃ new, (p.run s).pipeline.steps_result = p.steps_result ++ new := by
  cases hs : p.steps with
  | nil =>
    rw [run_eq_empty p s hs]
    exact ⟨[], by simp⟩
  | cons st rest =>
    have hne : p.steps.isEmpty = false := by rw [hs]; rfl
    cases hraised : (runLoop p.ignore_exception p.steps s p.pipeline_abort_flag).raised with
    | some e =>
      rw [run_eq_raised p s _ e hne rfl hraised]
      exact ⟨(runLoop p.ignore_exception p.steps s p.pipeline_abort_flag).steps_result, rfl⟩
    | none =>
      rw [run_eq_ok p s _ hne rfl hraised]
      exact ⟨(runLoop p.ignore_exception p.steps s p.pipeline_abort_flag).steps_result, rfl⟩

/-- When `run` returns normally, the returned record's `steps_result` is the
instance's accumulated `_steps_result` after the call. -/
theorem run_result_ok_steps {σ ε : Type} (p : Pipeline σ ε) (s : σ)
    (r : PipelineResult) (h : (p.run s).result = .ok r) :
    r.steps_result = (p.run s).pipeline.steps_result := by
  cases hs : p.steps with
  | nil =>
    rw [run_eq_empty p s hs] at h ⊢
    dsimp only at h ⊢
    simp only [Except.ok.injEq] at h
    subst h
    rfl
  | cons st rest =>
    have hne : p.steps.isEmpty = false := by rw [hs]; rfl
    cases hraised : (runLoop p.ignore_exception p.steps s p.pipeline_abort_flag).raised with
    | some e =>
      rw [run_eq_raised p s _ e hne rfl hraised] at h
      dsimp only at h
      simp at h
    | none =>
      rw [run_eq_ok p s _ hne rfl hraised] at h ⊢
      dsimp only at h ⊢
      simp only [Except.ok.injEq] at h
      subst h
      rfl

/-- Running a freshly constructed pipeline whose step list is a clean prefix
`pre` followed by `st :: post`, when the loop over `st :: post` from the
threaded state does not re-raise: the run returns normally, with one
successful `StepResult` per step of `pre` in front of the remainder's
results. -/
theorem run_fresh_clean_ok {σ ε : Type} (name : String) (ig : Bool)
    (pre : List (Step σ ε)) (st : Step σ ε) (post : List (Step σ ε))
    (s0 s1 : σ) (R : LoopOut σ ε)
    (h : cleanThread pre s0 = some s1)
    (hR : runLoop ig (st :: post) s1 false = R)
    (hraised : R.raised = none) :
    (freshPipeline name ig (pre ++ st :: post)).run s0 =
      ⟨⟨name, R.pipeline_abort_flag, ig, some R.correct_finish, some R.state,
          pre ++ st :: post,
          (pre.map fun t => ⟨t.step_name, true⟩) ++ R.steps_result⟩,
        .ok ⟨name, (pre.map fun t => ⟨t.step_name, true⟩) ++ R.steps_result,
          R.correct_finish⟩,
        .pipelineStart ::
          ((pre.flatMap fun t => [.stepStart t.step_name, .stepFinish t.step_name])
            ++ R.logs ++ [.pipelineFinish])⟩ := by
  have hloop := runLoop_append_clean ig pre (st :: post) s0 s1 h
  rw [hR] at hloop
  rw [freshPipeline_eq]
  rw [run_eq_ok ⟨name, false, ig, none, none, pre ++ st :: post, []⟩ s0
      ⟨R.state, R.pipeline_abort_flag,
        (pre.map fun t => ⟨t.step_name, true⟩) ++ R.steps_result,
        R.correct_finish, R.raised,
        (pre.flatMap fun t => [.stepStart t.step_name, .stepFinish t.step_name])
          ++ R.logs⟩
      (isEmpty_append_cons pre st post) hloop hraised]
  simp

/-- Same situation, but the loop over `st :: post` re-raises (propagate
policy): `run` raises, the prefix results stay recorded on the instance, and
no `PipelineResult` is built. -/
theorem run_fresh_clean_raised {σ ε : Type} (name : String) (ig : Bool)
    (pre : List (Step σ ε)) (st : Step σ ε) (post : List (Step σ ε))
    (s0 s1 : σ) (R : LoopOut σ ε) (e : ε)
    (h : cleanThread pre s0 = some s1)
    (hR : runLoop ig (st :: post) s1 false = R)
    (hraised : R.raised = some e) :
    (freshPipeline name ig (pre ++ st :: post)).run s0 =
      ⟨⟨name, R.pipeline_abort_flag, ig, some true, some R.state,
          pre ++ st :: post,
          (pre.map fun t => ⟨t.step_name, true⟩) ++ R.steps_result⟩,
        .error e,
        .pipelineStart ::
          ((pre.flatMap fun t => [.stepStart t.step_name, .stepFinish t.step_name])
            ++ R.logs)⟩ := by
  have hloop := runLoop_append_clean ig pre (st :: post) s0 s1 h
  rw [hR] at hloop
  rw [freshPipeline_eq]
  rw [run_eq_raised ⟨name, false, ig, none, none, pre ++ st :: post, []⟩ s0
      ⟨R.state, R.pipeline_abort_flag,
        (pre.map fun t => ⟨t.step_name, true⟩) ++ R.steps_result,
        R.correct_finish, R.raised,
        (pre.flatMap fun t => [.stepStart t.step_name, .stepFinish t.step_name])
          ++ R.logs⟩
      e (isEmpty_append_cons pre st post) hloop hraised]
  simp

/-! ### Concrete steps over `σ = Nat`, `ε = Unit`, used to instantiate the
theorems on explicit inputs -/

/-- A step that increments the state and returns normally. -/
def incStep : Step Nat Unit :=
  ⟨"inc", fun s => ⟨.ok (s + 1), false⟩⟩

/-- A step that returns normally after invoking the abort hook. -/
def abortingStep : Step Nat Unit :=
  ⟨"aborting", fun s => ⟨.ok (s + 10), true⟩⟩

/-- A step that always raises. -/
def failingStep : Step Nat Unit :=
  ⟨"failing", fun _ => ⟨.error (), false⟩⟩

/-- A step that invokes the abort hook and then raises. -/
def failingAbortingStep : Step Nat Unit :=
  ⟨"failing_aborting", fun _ => ⟨.error (), true⟩⟩

/-- A step that raises exactly on input `0` and increments otherwise. -/
def flakyStep : Step Nat Unit :=
  ⟨"flaky", fun s => if s = 0 then ⟨.error (), false⟩ else ⟨.ok (s + 1), false⟩⟩

/-! ### Claims -/

/-- C1 (amended): for a `run` invocation on a pipeline whose accumulated
`_steps_result` list is empty beforehand — in particular the first `run` of a
fresh instance — the returned `PipelineResult` has `correct_finish = true`
iff every entry in its `steps_result` list has `correct_finish = true`.
(The restriction is forced: `run` never clears `_steps_result` but resets
`_correct_finish` to `True` at entry, so on a later run the returned list
also contains entries of earlier runs, which `correct_finish` does not
reflect; see the counterexample.) -/
theorem c1_correct_finish_iff_all_entries {σ ε : Type} (p : Pipeline σ ε) (s : σ)
    (r : PipelineResult) (hacc : p.steps_result = [])
    (h : (p.run s).result = .ok r) :
    r.correct_finish = true ↔ ∀ sr ∈ r.steps_result, sr.correct_finish = true := by
  cases hs : p.steps with
  | nil =>
    rw [run_eq_empty p s hs] at h
    dsimp only at h
    simp only [Except.ok.injEq] at h
    subst h
    simp [hacc]
  | cons st rest =>
    have hne : p.steps.isEmpty = false := by rw [hs]; rfl
    cases hraised : (runLoop p.ignore_exception p.steps s p.pipeline_abort_flag).raised with
    | some e =>
      rw [run_eq_raised p s _ e hne rfl hraised] at h
      dsimp only at h
      exact absurd h (by simp)
    | none =>
      rw [run_eq_ok p s _ hne rfl hraised] at h
      dsimp only at h
      simp only [Except.ok.injEq] at h
      subst h
      dsimp only
      rw [hacc, List.nil_append, runLoop_correct_finish_eq_all]
      exact List.all_eq_true

/-- C1 witness: first run of a fresh one-step pipeline; the equivalence holds
there (both sides true). -/
theorem c1_correct_finish_iff_all_entries_witness :
    (PipelineResult.correct_finish ⟨"P", [⟨"inc", true⟩], true⟩ = true ↔
      ∀ sr ∈ (PipelineResult.steps_result ⟨"P", [⟨"inc", true⟩], true⟩),
        sr.correct_finish = true) :=
  c1_correct_finish_iff_all_entries (freshPipeline "P" true [incStep]) 0
    ⟨"P", [⟨"inc", true⟩], true⟩ (by rfl) (by rfl)

/-- C1 counterexample: `flakyStep` raises on state `0` and succeeds
otherwise.  Run a fresh ignore-policy pipeline `[flakyStep]` on `0` (one
failed entry is recorded), then run the same instance again on `1`.  The
second `run` invocation returns a `PipelineResult` with
`correct_finish = true` whose `steps_result` still contains the first run's
failed entry, refuting the claimed equivalence for that invocation. -/
theorem c1_counterexample :
    (((freshPipeline "P" true [flakyStep]).run 0).pipeline.run 1).result
        = .ok ⟨"P", [⟨"flaky", false⟩, ⟨"flaky", true⟩], true⟩ ∧
      ([(⟨"flaky", false⟩ : StepResult), ⟨"flaky", true⟩].all
        fun sr => sr.correct_finish) = false := by
  exact ⟨by rfl, by rfl⟩

/-- C2: for a freshly constructed pipeline with the ignore failure policy
whose registered steps are `pre ++ fs :: post`, if every step of `pre`
returns normally without invoking the abort hook (so execution reaches `fs`,
at position `i = pre.length` of `n = pre.length + 1 + post.length` steps)
and `fs` raises, then `run` returns normally a `PipelineResult` whose
`steps_result` is one successful entry per step of `pre` followed by exactly
one failed entry for `fs` — `i + 1` entries, only the last with
`correct_finish = false`.  The result does not depend on `post`: the steps
after the failure are never invoked. -/
theorem c2_ignore_policy_stops_at_first_failure {σ ε : Type} (name : String)
    (pre post : List (Step σ ε)) (fs : Step σ ε) (s0 s1 : σ) (e : ε)
    (hpre : cleanThread pre s0 = some s1)
    (hfail : (fs.run s1).result = .error e) :
    ((freshPipeline name true (pre ++ fs :: post)).run s0).result
      = .ok ⟨name,
          (pre.map fun t => ⟨t.step_name, true⟩) ++ [⟨fs.step_name, false⟩],
          false⟩ := by
  rcases hfs : fs.run s1 with ⟨res, abc⟩
  rw [hfs] at hfail
  dsimp only at hfail
  subst hfail
  have hR : runLoop true (fs :: post) s1 false
      = ⟨s1, abc, [⟨fs.step_name, false⟩], false, none,
          [.stepStart fs.step_name, .stepFinish fs.step_name]⟩ := by
    simp [runLoop, hfs]
  rw [run_fresh_clean_ok name true pre fs post s0 s1 _ hpre hR rfl]

/-- C2 witness: steps `[inc, inc, failing, inc]` on initial state `0`. -/
theorem c2_ignore_policy_stops_at_first_failure_witness :
    ((freshPipeline "P" true ([incStep, incStep] ++ failingStep :: [incStep])).run 0).result
      = .ok ⟨"P", [⟨"inc", true⟩, ⟨"inc", true⟩, ⟨"failing", false⟩], false⟩ :=
  c2_ignore_policy_stops_at_first_failure "P" [incStep, incStep] [incStep]
    failingStep 0 2 () (by rfl) (by rfl)

/-- C3: for a freshly constructed pipeline with the propagate failure policy
(`ignore_exception = false`) whose steps are `pre ++ fs :: post`, if execution
reaches `fs` and `fs` raises `e`, then `run` re-raises that same `e` (the
caller receives the error, not a `PipelineResult`), and no `StepResult` for
the failed step is appended: the instance's result list holds exactly the
successful entries of `pre`. -/
theorem c3_propagate_policy_reraises {σ ε : Type} (name : String)
    (pre post : List (Step σ ε)) (fs : Step σ ε) (s0 s1 : σ) (e : ε)
    (hpre : cleanThread pre s0 = some s1)
    (hfail : (fs.run s1).result = .error e) :
    ((freshPipeline name false (pre ++ fs :: post)).run s0).result = .error e ∧
    ((freshPipeline name false (pre ++ fs :: post)).run s0).pipeline.steps_result
      = (pre.map fun t => ⟨t.step_name, true⟩) := by
  rcases hfs : fs.run s1 with ⟨res, abc⟩
  rw [hfs] at hfail
  dsimp only at hfail
  subst hfail
  have hR : runLoop false (fs :: post) s1 false
      = ⟨s1, abc, [], true, some e, [.stepStart fs.step_name]⟩ := by
    simp [runLoop, hfs]
  rw [run_fresh_clean_raised name false pre fs post s0 s1 _ e hpre hR rfl]
  exact ⟨rfl, by simp⟩

/-- C3 witness: steps `[inc, failing, inc]` under propagate policy. -/
theorem c3_propagate_policy_reraises_witness :
    ((freshPipeline "P" false ([incStep] ++ failingStep :: [incStep])).run 0).result
        = .error () ∧
      ((freshPipeline "P" false ([incStep] ++ failingStep :: [incStep])).run 0).pipeline.steps_result
        = [⟨"inc", true⟩] :=
  c3_propagate_policy_reraises "P" [incStep] [incStep] failingStep 0 1 ()
    (by rfl) (by rfl)

/-- C4: no step raises; the step `ast` at 1-based position
`k = pre.length + 1` invokes the abort hook and returns normally, the steps
of `pre` before it return normally without aborting.  Then `run` returns a
`PipelineResult` with exactly `k` entries, all `correct_finish = true`, and
aggregate `correct_finish = true`; the result does not depend on `post`, so
the steps after position `k` are never invoked. -/
theorem c4_abort_truncates_successfully {σ ε : Type} (name : String) (ig : Bool)
    (pre post : List (Step σ ε)) (ast : Step σ ε) (s0 s1 s2 : σ)
    (hpre : cleanThread pre s0 = some s1)
    (habort : ast.run s1 = ⟨.ok s2, true⟩) :
    ((freshPipeline name ig (pre ++ ast :: post)).run s0).result
      = .ok ⟨name,
          (pre.map fun t => ⟨t.step_name, true⟩) ++ [⟨ast.step_name, true⟩],
          true⟩ := by
  have hR : runLoop ig (ast :: post) s1 false
      = ⟨s2, true, [⟨ast.step_name, true⟩], true, none,
          [.stepStart ast.step_name, .stepFinish ast.step_name,
            .abortedByStep ast.step_name]⟩ := by
    simp [runLoop, habort]
  rw [run_fresh_clean_ok name ig pre ast post s0 s1 _ hpre hR rfl]

/-- C4 witness: steps `[inc, aborting, inc, inc]` on initial state `0`. -/
theorem c4_abort_truncates_successfully_witness :
    ((freshPipeline "P" true ([incStep] ++ abortingStep :: [incStep, incStep])).run 0).result
      = .ok ⟨"P", [⟨"inc", true⟩, ⟨"aborting", true⟩], true⟩ :=
  c4_abort_truncates_successfully "P" true [incStep] [incStep, incStep]
    abortingStep 0 1 11 (by rfl) (by rfl)

/-- C5: running a pipeline with zero registered steps (and hence an empty
accumulated result list — results are only ever appended by executing steps)
is not an error: `run` skips the loop, emits the `Empty steps sequence`
signal at warning level, and returns a `PipelineResult` with
`correct_finish = true` and an empty `steps_result` list. -/
theorem c5_empty_steps_is_success {σ ε : Type} (p : Pipeline σ ε) (s : σ)
    (hsteps : p.steps = []) (hacc : p.steps_result = []) :
    (p.run s).result = .ok ⟨p.pipeline_name, [], true⟩ ∧
    LogEvent.emptyStepsWarning ∈ (p.run s).logs ∧
    LogEvent.emptyStepsWarning.level = .warning := by
  rw [run_eq_empty p s hsteps]
  exact ⟨by rw [hacc], by simp, rfl⟩

/-- C5 witness: a freshly constructed pipeline with no steps registered. -/
theorem c5_empty_steps_is_success_witness :
    ((Pipeline.init "P" true : Pipeline Nat Unit).run 0).result
        = .ok ⟨"P", [], true⟩ ∧
      LogEvent.emptyStepsWarning ∈ ((Pipeline.init "P" true : Pipeline Nat Unit).run 0).logs ∧
      LogEvent.emptyStepsWarning.level = .warning :=
  c5_empty_steps_is_success (Pipeline.init "P" true) 0 (by rfl) (by rfl)

/-- C6: the failure check (lines 296-298) precedes the abort check
(lines 300-302).  For a fresh ignore-policy pipeline whose steps are
`pre ++ fs :: post` with a clean prefix `pre`, if `fs` both invokes the abort
hook and raises, its `StepResult` is recorded with `correct_finish = false`,
the pipeline's `correct_finish` becomes `false`, the abort flag is left set,
and the loop stops for the failure reason: the `Pipeline was aborted by a
step` signal is never emitted for `fs`. -/
theorem c6_failure_check_precedes_abort_check {σ ε : Type} (name : String)
    (pre post : List (Step σ ε)) (fs : Step σ ε) (s0 s1 : σ) (e : ε)
    (hpre : cleanThread pre s0 = some s1)
    (hfail : fs.run s1 = ⟨.error e, true⟩) :
    ((freshPipeline name true (pre ++ fs :: post)).run s0).result
        = .ok ⟨name,
            (pre.map fun t => ⟨t.step_name, true⟩) ++ [⟨fs.step_name, false⟩],
            false⟩ ∧
      ((freshPipeline name true (pre ++ fs :: post)).run s0).pipeline.pipeline_abort_flag
        = true ∧
      LogEvent.abortedByStep fs.step_name
        ∉ ((freshPipeline name true (pre ++ fs :: post)).run s0).logs := by
  have hR : runLoop true (fs :: post) s1 false
      = ⟨s1, true, [⟨fs.step_name, false⟩], false, none,
          [.stepStart fs.step_name, .stepFinish fs.step_name]⟩ := by
    simp [runLoop, hfail]
  rw [run_fresh_clean_ok name true pre fs post s0 s1 _ hpre hR rfl]
  refine ⟨rfl, rfl, ?_⟩
  simp [List.mem_flatMap]

/-- C6 witness: steps `[inc, failing_aborting, inc]`. -/
theorem c6_failure_check_precedes_abort_check_witness :
    ((freshPipeline "P" true ([incStep] ++ failingAbortingStep :: [incStep])).run 0).result
        = .ok ⟨"P", [⟨"inc", true⟩, ⟨"failing_aborting", false⟩], false⟩ ∧
      ((freshPipeline "P" true ([incStep] ++ failingAbortingStep :: [incStep])).run 0).pipeline.pipeline_abort_flag
        = true ∧
      LogEvent.abortedByStep "failing_aborting"
        ∉ ((freshPipeline "P" true ([incStep] ++ failingAbortingStep :: [incStep])).run 0).logs :=
  c6_failure_check_precedes_abort_check "P" [incStep] [incStep]
    failingAbortingStep 0 1 () (by rfl) (by rfl)

/-- C7: the pipeline adopts whichever state instance the step returns.  For a
fresh pipeline whose last step `st` is reached through a clean prefix `pre`
threading the state to `s1`: if `st.run` returns `s2` (whether or not it
invoked the abort hook), `get_state` after the run yields `s2`; if `st`
raises under the ignore policy, the live state remains `s1`, the state that
was passed into the failing step. -/
theorem c7_pipeline_adopts_returned_state {σ ε : Type} (name : String) (ig : Bool)
    (pre : List (Step σ ε)) (st : Step σ ε) (s0 s1 : σ)
    (hpre : cleanThread pre s0 = some s1) :
    (∀ s2 abc, st.run s1 = ⟨.ok s2, abc⟩ →
      ((freshPipeline name ig (pre ++ [st])).run s0).pipeline.get_state = some s2) ∧
    (∀ e abc, st.run s1 = ⟨.error e, abc⟩ →
      ((freshPipeline name true (pre ++ [st])).run s0).pipeline.get_state = some s1) := by
  constructor
  · intro s2 abc hok
    cases abc with
    | false =>
      have hR : runLoop ig [st] s1 false
          = ⟨s2, false, [⟨st.step_name, true⟩], true, none,
              [.stepStart st.step_name, .stepFinish st.step_name]⟩ := by
        simp [runLoop, hok]
      rw [run_fresh_clean_ok name ig pre st [] s0 s1 _ hpre hR rfl]
      rfl
    | true =>
      have hR : runLoop ig [st] s1 false
          = ⟨s2, true, [⟨st.step_name, true⟩], true, none,
              [.stepStart st.step_name, .stepFinish st.step_name,
                .abortedByStep st.step_name]⟩ := by
        simp [runLoop, hok]
      rw [run_fresh_clean_ok name ig pre st [] s0 s1 _ hpre hR rfl]
      rfl
  · intro e abc hraise
    have hR : runLoop true [st] s1 false
        = ⟨s1, abc, [⟨st.step_name, false⟩], false, none,
            [.stepStart st.step_name, .stepFinish st.step_name]⟩ := by
      simp [runLoop, hraise]
    rw [run_fresh_clean_ok name true pre st [] s0 s1 _ hpre hR rfl]
    rfl

/-- C7 witness: `[inc, inc]` adopts the returned state `2`; `[inc, failing]`
keeps the failing step's input state `1` live. -/
theorem c7_pipeline_adopts_returned_state_witness :
    ((freshPipeline "P" true ([incStep] ++ [incStep])).run 0).pipeline.get_state
        = some 2 ∧
      ((freshPipeline "P" true ([incStep] ++ [failingStep])).run 0).pipeline.get_state
        = some 1 :=
  ⟨(c7_pipeline_adopts_returned_state "P" true [incStep] incStep 0 1 (by rfl)).1
      2 false (by rfl),
    (c7_pipeline_adopts_returned_state "P" true [incStep] failingStep 0 1 (by rfl)).2
      () false (by rfl)⟩

/-- C8 counterexample: the source defines a single exception class,
`TpdpException` (line 21), and both guards raise it (lines 86 and 129).  On a
value satisfying neither capability, `assert_state` and `assert_step` raise
exceptions of the *same* class — not distinct, correspondingly named error
types — distinguished only by their messages. -/
theorem c8_counterexample :
    errClass (assert_state (Dyn.otherVal "42")) = some "TpdpException" ∧
    errClass (assert_step (Dyn.otherVal "42")) = some "TpdpException" ∧
    errClass (assert_state (Dyn.otherVal "42"))
      = errClass (assert_step (Dyn.otherVal "42")) :=
  ⟨rfl, rfl, rfl⟩

/-- C8 (amended): `assert_state x` returns `x` unchanged when `x` satisfies
the State capability and otherwise fails; `assert_step` (invoked by
`registry_step`, line 268) likewise rejects a value not satisfying the Step
capability.  But the two boundary checks raise the *same* exception type,
`TpdpException`, distinguished only by their messages ("... to be a State
type." vs "... to be a Step type."), not distinct correspondingly named
error types. -/
theorem c8_guards_raise_same_exception_class (v : Dyn) :
    (is_state v = true → assert_state v = .ok v) ∧
    (is_state v = false → assert_state v
        = .error ⟨"TpdpException", "Expected " ++ v.str ++ " to be a State type."⟩) ∧
    (is_step v = true → assert_step v = .ok v) ∧
    (is_step v = false → assert_step v
        = .error ⟨"TpdpException", "Expected " ++ v.str ++ " to be a Step type."⟩) := by
  refine ⟨fun h => ?_, fun h => ?_, fun h => ?_, fun h => ?_⟩ <;>
    simp [assert_state, assert_step, h]

/-- C8 witness: a `State` value passes `assert_state` unchanged; a foreign
value is rejected by both guards with a `TpdpException`. -/
theorem c8_guards_raise_same_exception_class_witness :
    assert_state Dyn.stateVal = .ok Dyn.stateVal ∧
    assert_state (Dyn.otherVal "42")
        = .error ⟨"TpdpException", "Expected " ++ (Dyn.otherVal "42").str ++ " to be a State type."⟩ ∧
    assert_step (Dyn.otherVal "42")
        = .error ⟨"TpdpException", "Expected " ++ (Dyn.otherVal "42").str ++ " to be a Step type."⟩ :=
  ⟨(c8_guards_raise_same_exception_class Dyn.stateVal).1 (by rfl),
    (c8_guards_raise_same_exception_class (Dyn.otherVal "42")).2.1 (by rfl),
    (c8_guards_raise_same_exception_class (Dyn.otherVal "42")).2.2.2 (by rfl)⟩

/-- C9: `run` never clears the accumulated result list — it is initialised
only in the constructor and `run` only appends to it.  If a first `run`
returned a `PipelineResult` `r1` and a second `run` on the same instance
returns `r2`, then `r2.steps_result` is `r1.steps_result` followed by the
entries appended by the second run. -/
theorem c9_results_accumulate_across_runs {σ ε : Type} (p : Pipeline σ ε)
    (s0 s1 : σ) (r1 r2 : PipelineResult)
    (h1 : (p.run s0).result = .ok r1)
    (h2 : ((p.run s0).pipeline.run s1).result = .ok r2) :
    ∃ tail, r2.steps_result = r1.steps_result ++ tail := by
  obtain ⟨new, hnew⟩ := run_steps_result_grows (p.run s0).pipeline s1
  have e1 := run_result_ok_steps p s0 r1 h1
  have e2 := run_result_ok_steps (p.run s0).pipeline s1 r2 h2
  exact ⟨new, by rw [e2, hnew, e1]⟩

/-- C9 witness: running a fresh `[inc]` pipeline twice; the second result
list extends the first. -/
theorem c9_results_accumulate_across_runs_witness :
    ∃ tail,
      (PipelineResult.steps_result ⟨"P", [⟨"inc", true⟩, ⟨"inc", true⟩], true⟩)
        = (PipelineResult.steps_result ⟨"P", [⟨"inc", true⟩], true⟩) ++ tail :=
  c9_results_accumulate_across_runs (freshPipeline "P" true [incStep]) 0 5
    ⟨"P", [⟨"inc", true⟩], true⟩ ⟨"P", [⟨"inc", true⟩, ⟨"inc", true⟩], true⟩
    (by rfl) (by rfl)

/-- The loop over a single step appends exactly one `StepResult` when it does
not re-raise. -/
theorem runLoop_singleton_raised_none_len {σ ε : Type} (ig : Bool) (st : Step σ ε)
    (s : σ) (ab : Bool) (h : (runLoop ig [st] s ab).raised = none) :
    (runLoop ig [st] s ab).steps_result.length = 1 := by
  rcases hrun : st.run s with ⟨res, abc⟩
  rcases res with e | s'
  · cases ig with
    | true => simp [runLoop, hrun]
    | false => simp [runLoop, hrun] at h
  · simp only [runLoop, hrun]
    split
    · simp
    · simp [runLoop]

/-- The loop over a single step appends at most one `StepResult`. -/
theorem runLoop_singleton_len_le {σ ε : Type} (ig : Bool) (st : Step σ ε)
    (s : σ) (ab : Bool) :
    (runLoop ig [st] s ab).steps_result.length ≤ 1 := by
  simp only [runLoop]
  rcases hrun : st.run s with ⟨res, abc⟩
  rcases res with e | s'
  · simp only [hrun]
    split <;> simp
  · simp only [hrun]
    split
    · simp
    · simp [runLoop]

/-- C10: the abort flag is set to `False` only in the constructor and no
operation resets it — `pipeline_abort` sets it, `registry_step` and `run`
preserve a set flag.  Once set, a `run` on a non-empty step sequence
`st :: rest` behaves as if `st` were the only step (the loop's outcome does
not depend on `rest`: it stops right after the first step), appending at
most one `StepResult`. -/
theorem c10_abort_flag_never_reset {σ ε : Type} (name : String) (ig : Bool)
    (p : Pipeline σ ε) (s : σ) (st : Step σ ε) (rest : List (Step σ ε))
    (hab : p.pipeline_abort_flag = true) (hsteps : p.steps = st :: rest) :
    (Pipeline.init name ig : Pipeline σ ε).pipeline_abort_flag = false ∧
    (p.pipeline_abort).pipeline_abort_flag = true ∧
    (p.registry_step st).pipeline_abort_flag = true ∧
    (p.run s).pipeline.pipeline_abort_flag = true ∧
    runLoop ig (st :: rest) s true = runLoop ig [st] s true ∧
    (p.run s).pipeline.steps_result.length ≤ p.steps_result.length + 1 ∧
    (∀ r, (p.run s).result = .ok r →
      r.steps_result.length = p.steps_result.length + 1) := by
  have hne : p.steps.isEmpty = false := by rw [hsteps]; rfl
  refine ⟨rfl, rfl, hab, ?_, runLoop_cons_true ig st rest s, ?_, ?_⟩
  · cases hraised : (runLoop p.ignore_exception p.steps s p.pipeline_abort_flag).raised with
    | some e =>
      rw [run_eq_raised p s _ e hne rfl hraised]
      dsimp only
      rw [hab]
      exact runLoop_abort_flag_true p.ignore_exception p.steps s
    | none =>
      rw [run_eq_ok p s _ hne rfl hraised]
      dsimp only
      rw [hab]
      exact runLoop_abort_flag_true p.ignore_exception p.steps s
  · cases hraised : (runLoop p.ignore_exception p.steps s p.pipeline_abort_flag).raised with
    | some e =>
      rw [run_eq_raised p s _ e hne rfl hraised]
      dsimp only
      rw [hab, hsteps, runLoop_cons_true, List.length_append]
      exact Nat.add_le_add_left (runLoop_singleton_len_le _ _ _ _) _
    | none =>
      rw [run_eq_ok p s _ hne rfl hraised]
      dsimp only
      rw [hab, hsteps, runLoop_cons_true, List.length_append]
      exact Nat.add_le_add_left (runLoop_singleton_len_le _ _ _ _) _
  · intro r hr
    cases hraised : (runLoop p.ignore_exception p.steps s p.pipeline_abort_flag).raised with
    | some e =>
      rw [run_eq_raised p s _ e hne rfl hraised] at hr
      dsimp only at hr
      exact absurd hr (by simp)
    | none =>
      rw [run_eq_ok p s _ hne rfl hraised] at hr
      dsimp only at hr
      simp only [Except.ok.injEq] at hr
      subst hr
      dsimp only
      rw [hab, hsteps, runLoop_cons_true] at hraised ⊢
      rw [List.length_append, runLoop_singleton_raised_none_len _ _ _ _ hraised]

/-- C10 witness: an aborted two-step pipeline keeps its flag through
`pipeline_abort`, `registry_step` and `run`, and its next run stops after one
step. -/
theorem c10_abort_flag_never_reset_witness :
    (Pipeline.init "Q" true : Pipeline Nat Unit).pipeline_abort_flag = false ∧
    ((freshPipeline "P" true [incStep, incStep]).pipeline_abort).pipeline_abort.pipeline_abort_flag
      = true ∧
    (((freshPipeline "P" true [incStep, incStep]).pipeline_abort).registry_step incStep).pipeline_abort_flag
      = true ∧
    (((freshPipeline "P" true [incStep, incStep]).pipeline_abort).run 0).pipeline.pipeline_abort_flag
      = true ∧
    runLoop true (incStep :: [incStep]) 0 true = runLoop true [incStep] 0 true ∧
    (((freshPipeline "P" true [incStep, incStep]).pipeline_abort).run 0).pipeline.steps_result.length
      ≤ ((freshPipeline "P" true [incStep, incStep]).pipeline_abort).steps_result.length + 1 ∧
    (PipelineResult.steps_result ⟨"P", [⟨"inc", true⟩], true⟩).length
      = ((freshPipeline "P" true [incStep, incStep]).pipeline_abort).steps_result.length + 1 :=
  let h := c10_abort_flag_never_reset "Q" true
    ((freshPipeline "P" true [incStep, incStep]).pipeline_abort) 0 incStep
    [incStep] (by rfl) (by rfl)
  ⟨h.1, h.2.1, h.2.2.1, h.2.2.2.1, h.2.2.2.2.1, h.2.2.2.2.2.1,
    h.2.2.2.2.2.2 ⟨"P", [⟨"inc", true⟩], true⟩ (by rfl)⟩

end Tpdp
